import Mathlib

/-!
Shallow embedding of the connection pool in `pool.go` (package `connPool`).

The Go pool is split into an immutable configuration (`Options`, including the
external collaborators: the dialer, the optional close hook, and the result of
closing a connection) and the mutable pool state (`PoolState`).  Goroutine
interleavings are not modelled: each exported operation is embedded as a pure
function from a pool state to the updated pool state, a trace of observable
events (dial attempts, hook invocations, connection closes, probe-loop spawns
and back-off sleeps) and the operation's Go return values.  A channel receive
`<-p.queue` that would block forever in a sequential execution is modelled by
an `Option`-valued result (`none` = the call never returns).  Errors are an
explicit inductive type; the Go `nil` error is `Option.none`.
-/

/-- Errors that flow through the pool: the two sentinel errors declared in
`pool.go` plus opaque payloads standing for dial errors, errors of
`cn.Close()` and errors returned by the `OnClose` hook. -/
inductive Err where
  | errClosed : Err
  | errPoolTimeout : Err
  | dialErr : Nat → Err
  | connCloseErr : Nat → Err
  | hookErr : Nat → Err
deriving DecidableEq, Repr

/-- Modelled from the spec: the connection handle type `Conn` (its Go file is
not part of the repository; only `pool.go` is).  Per the spec's data model a
handle wraps one transport connection and carries "a last-used/created
timestamp (owned by the external collaborator, queried via the staleness
predicate)".  `id` stands for the pointer identity the Go code compares with
`==`; distinct handles have distinct ids. -/
structure Conn where
  id : Nat
  usedAt : Int
deriving DecidableEq, Repr

/-- Modelled from the spec: the staleness predicate of the missing `Conn`
file.  "if `idleTimeout ≤ 0`, always false (staleness disabled); otherwise
true iff the handle has been idle longer than `idleTimeout`"; idleness is
measured from the handle's timestamp at the current time `now`. -/
def Conn.IsStale (cn : Conn) (now : Int) (idleTimeout : Int) : Bool :=
  decide (0 < idleTimeout) && decide (idleTimeout < now - cn.usedAt)

/-- Observable events of one pool operation, in program order. -/
inductive Event where
  | dialAttempt : Event
  | hookCalled : Conn → Event
  | connClosed : Conn → Event
  | probeSpawned : Event
  | probeSleep : Event
deriving DecidableEq, Repr

/-- The `Options` struct of `pool.go`, together with the behaviour of the
external collaborators: `dialer n` is the result of the n-th call of
`opt.Dialer` (a fresh handle or a dial error), `onClose` is the optional
close-notification hook together with the error it returns, and
`closeResult cn` is the error returned by `cn.Close()`. -/
structure Options where
  poolSize : Nat
  poolTimeout : Int
  idleTimeout : Int
  idleCheckFrequency : Int
  dialer : Nat → Except Err Conn
  onClose : Option (Conn → Option Err)
  closeResult : Conn → Option Err

/-- The mutable state of a `ConnPool`: the atomic dial-failure counter, the
cached last dial error, the number of tokens currently in the `queue` channel,
the live-set `conns`, the free-list `freeConns` and the `_closed` flag.
`dialCount` counts the dial attempts made so far and indexes `Options.dialer`.
-/
structure PoolState where
  dialErrorsNum : Nat
  lastDialError : Option Err
  queueLen : Nat
  conns : List Conn
  freeConns : List Conn
  closed : Bool
  dialCount : Nat
deriving DecidableEq, Repr

/-- The fresh pool produced by `NewConnPool`. -/
def ConnPool.initial : PoolState :=
  { dialErrorsNum := 0, lastDialError := none, queueLen := 0,
    conns := [], freeConns := [], closed := false, dialCount := 0 }

/-- The private `closeConn`: invokes the `OnClose` hook when configured,
discarding its returned error (`_ = p.opt.OnClose(cn)`), then returns the
error of `cn.Close()`. -/
def ConnPool.closeConn (opt : Options) (cn : Conn) : List Event × Option Err :=
  match opt.onClose with
  | some hook =>
      let _ := hook cn
      ([Event.hookCalled cn, Event.connClosed cn], opt.closeResult cn)
  | none => ([Event.connClosed cn], opt.closeResult cn)

/-- The removal loop inside `CloseConn`: scans `conns`, removes the first
element equal to `cn` and breaks. -/
def removeConn (l : List Conn) (cn : Conn) : List Conn :=
  match l with
  | [] => []
  | c :: rest => if c = cn then rest else c :: removeConn rest cn

/-- The exported `CloseConn`: removes `cn` from the live-set (first occurrence
only), then runs `closeConn`. -/
def ConnPool.CloseConn (opt : Options) (s : PoolState) (cn : Conn) :
    PoolState × List Event × Option Err :=
  ({ s with conns := removeConn s.conns cn }, ConnPool.closeConn opt cn)

/-- The method `(p *ConnPool) NewConn()`: closed check, circuit-breaker
fast-fail, then a dial; on dial failure it records the error, increments the
failure counter and spawns `tryDial` exactly when the post-increment counter
equals the pool size; on success it appends the new handle to the live-set. -/
def ConnPool.NewConn (opt : Options) (s : PoolState) :
    PoolState × List Event × (Option Conn × Option Err) :=
  if s.closed then (s, [], (none, some Err.errClosed))
  else if opt.poolSize ≤ s.dialErrorsNum then (s, [], (none, s.lastDialError))
  else
    match opt.dialer s.dialCount with
    | Except.error e =>
        let s1 := { s with lastDialError := some e, dialCount := s.dialCount + 1,
                           dialErrorsNum := s.dialErrorsNum + 1 }
        if s1.dialErrorsNum = opt.poolSize then
          (s1, [Event.dialAttempt, Event.probeSpawned], (none, some e))
        else
          (s1, [Event.dialAttempt], (none, some e))
    | Except.ok nc =>
        ({ s with dialCount := s.dialCount + 1, conns := s.conns ++ [nc] },
         [Event.dialAttempt], (some nc, none))

/-- The background probe loop `tryDial`, with explicit fuel bounding the
number of iterations: stops when the pool is closed; on a failed dial records
the error, sleeps the fixed back-off and retries; on a successful dial resets
the failure counter to zero, closes the probe connection and returns. -/
def ConnPool.tryDial (opt : Options) : Nat → PoolState → PoolState × List Event
  | 0, s => (s, [])
  | fuel + 1, s =>
      if s.closed then (s, [])
      else
        match opt.dialer s.dialCount with
        | Except.error e =>
            let s1 := { s with lastDialError := some e, dialCount := s.dialCount + 1 }
            let r := ConnPool.tryDial opt fuel s1
            (r.1, Event.dialAttempt :: Event.probeSleep :: r.2)
        | Except.ok c =>
            ({ s with dialCount := s.dialCount + 1, dialErrorsNum := 0 },
             [Event.dialAttempt, Event.connClosed c])

/-- The method `popFree`: returns `none` when the free-list is empty, and
otherwise pops its tail (index `len-1`). -/
def ConnPool.popFree (s : PoolState) : PoolState × Option Conn :=
  if s.freeConns.length = 0 then (s, none)
  else ({ s with freeConns := s.freeConns.dropLast }, s.freeConns.getLast?)

/-- The free-list loop inside `Get`, with fuel (the initial free-list length
suffices): pops free handles until a non-stale one is found (returned) or the
free-list is exhausted (`none`); each stale handle popped is closed and
untracked via `CloseConn`. -/
def ConnPool.getFreeLoop (opt : Options) (now : Int) :
    Nat → PoolState → PoolState × List Event × Option Conn
  | 0, s => (s, [], none)
  | fuel + 1, s =>
      let p := ConnPool.popFree s
      match p.2 with
      | none => (p.1, [], none)
      | some cn =>
          if cn.IsStale now opt.idleTimeout then
            let c := ConnPool.CloseConn opt p.1 cn
            let r := ConnPool.getFreeLoop opt now fuel c.1
            (r.1, c.2.1 ++ r.2.1, r.2.2)
          else (p.1, [], some cn)

/-- The method `Get`: closed check; token acquisition against the admission
gate (in a sequential execution the non-blocking send succeeds iff the queue
holds fewer tokens than the pool size, and otherwise the timer fires and the
call returns the pool-timeout error); then the free-list loop; on exhaustion
`NewConn`, releasing the token before returning any error. -/
def ConnPool.Get (opt : Options) (now : Int) (s : PoolState) :
    PoolState × List Event × (Option Conn × Bool × Option Err) :=
  if s.closed then (s, [], (none, false, some Err.errClosed))
  else if s.queueLen < opt.poolSize then
    let s0 := { s with queueLen := s.queueLen + 1 }
    let r := ConnPool.getFreeLoop opt now s0.freeConns.length s0
    match r.2.2 with
    | some cn => (r.1, r.2.1, (some cn, false, none))
    | none =>
        let r2 := ConnPool.NewConn opt r.1
        match r2.2.2.2 with
        | some e =>
            ({ r2.1 with queueLen := r2.1.queueLen - 1 },
             r.2.1 ++ r2.2.1, (none, false, some e))
        | none => (r2.1, r.2.1 ++ r2.2.1, (r2.2.2.1, true, none))
  else (s, [], (none, false, some Err.errPoolTimeout))

/-- The method `Put`: appends the handle at the tail of the free-list, then
receives one token from the queue.  When no token is held the receive blocks
forever in a sequential execution; that case is `none`. -/
def ConnPool.Put (cn : Conn) (s : PoolState) : PoolState × Option (Option Err) :=
  let s1 := { s with freeConns := s.freeConns ++ [cn] }
  if s1.queueLen = 0 then (s1, none)
  else ({ s1 with queueLen := s1.queueLen - 1 }, some none)

/-- The method `Remove`: `CloseConn` (result discarded), then receives one
token from the queue; returns `nil`.  As in `Put`, a receive with no token
held blocks forever (`none`). -/
def ConnPool.Remove (opt : Options) (cn : Conn) (s : PoolState) :
    PoolState × List Event × Option (Option Err) :=
  let c := ConnPool.CloseConn opt s cn
  if c.1.queueLen = 0 then (c.1, c.2.1, none)
  else ({ c.1 with queueLen := c.1.queueLen - 1 }, c.2.1, some none)

/-- The loop in `Close` over the live-set: closes every handle with
`closeConn` and keeps the first non-nil error. -/
def ConnPool.closeAll (opt : Options) : List Conn → List Event × Option Err
  | [] => ([], none)
  | cn :: rest =>
      let c := ConnPool.closeConn opt cn
      let r := ConnPool.closeAll opt rest
      (c.1 ++ r.1, match c.2 with | some e => some e | none => r.2)

/-- The method `Close`: a compare-and-swap on the closed flag (a second call
returns the closed-pool error), then closes every handle in the live-set,
clears the live-set and the free-list, and returns the first close error. -/
def ConnPool.Close (opt : Options) (s : PoolState) : PoolState × List Event × Option Err :=
  if s.closed then (s, [], some Err.errClosed)
  else
    let r := ConnPool.closeAll opt s.conns
    ({ s with closed := true, conns := [], freeConns := [] }, r.1, r.2)

/-- The private `reapStaleConn`: examines only the head of the free-list; if
it is stale, closes and untracks it via `CloseConn` and removes it from the
head, reporting `true`; otherwise reports `false`. -/
def ConnPool.reapStaleConn (opt : Options) (now : Int) (s : PoolState) :
    PoolState × List Event × Bool :=
  match s.freeConns with
  | [] => (s, [], false)
  | cn :: rest =>
      if cn.IsStale now opt.idleTimeout then
        let c := ConnPool.CloseConn opt s cn
        ({ c.1 with freeConns := rest }, c.2.1, true)
      else (s, [], false)

/-- The loop of `ReapStaleConns`, with fuel (the initial free-list length
suffices): one `reapStaleConn` step per iteration, counting removed entries,
until a step removes nothing. -/
def ConnPool.reapLoop (opt : Options) (now : Int) :
    Nat → PoolState → PoolState × List Event × Nat
  | 0, s => (s, [], 0)
  | fuel + 1, s =>
      let r1 := ConnPool.reapStaleConn opt now s
      if r1.2.2 then
        let r2 := ConnPool.reapLoop opt now fuel r1.1
        (r2.1, r1.2.1 ++ r2.2.1, r2.2.2 + 1)
      else (r1.1, r1.2.1, 0)

/-- The exported `ReapStaleConns`: each iteration sends one token into the
queue and receives it back around the `reapStaleConn` step.  In a sequential
execution the send blocks forever when the queue is full; the token count is
restored on every iteration, so the condition is loop-invariant and is
checked once up front (`none` = the call never returns). -/
def ConnPool.ReapStaleConns (opt : Options) (now : Int) (s : PoolState) :
    Option (PoolState × List Event × (Nat × Option Err)) :=
  if opt.poolSize ≤ s.queueLen then none
  else
    let r := ConnPool.reapLoop opt now s.freeConns.length s
    some (r.1, r.2.1, (r.2.2, none))

/-! Concrete data used by witnesses and counterexamples. -/

/-- Example handle with identity 0. -/
def exConn : Conn := { id := 0, usedAt := 0 }

/-- Example handle that is still fresh at time 100 under idle timeout 10. -/
def exFreshConn : Conn := { id := 1, usedAt := 95 }

/-- Example handle that is stale at time 100 under idle timeout 10. -/
def exStaleConn : Conn := { id := 2, usedAt := 0 }

/-- Example configuration whose dialer always succeeds. -/
def exOpt : Options :=
  { poolSize := 2, poolTimeout := 5, idleTimeout := 10, idleCheckFrequency := 1,
    dialer := fun n => Except.ok { id := n + 100, usedAt := 0 },
    onClose := none, closeResult := fun _ => none }

/-- Example configuration whose dialer always fails. -/
def exFailOpt : Options :=
  { poolSize := 2, poolTimeout := 5, idleTimeout := 10, idleCheckFrequency := 1,
    dialer := fun n => Except.error (Err.dialErr n),
    onClose := none, closeResult := fun _ => none }

/-- Example configuration with a close hook that fails on every handle while
the underlying close succeeds. -/
def exHookOpt : Options :=
  { poolSize := 1, poolTimeout := 0, idleTimeout := 0, idleCheckFrequency := 0,
    dialer := fun n => Except.error (Err.dialErr n),
    onClose := some (fun _ => some (Err.hookErr 7)),
    closeResult := fun _ => none }

/-- Example closed pool that still has one token held by a caller. -/
def exClosedState : PoolState :=
  { dialErrorsNum := 0, lastDialError := none, queueLen := 1,
    conns := [], freeConns := [], closed := true, dialCount := 0 }

/-- Example open pool with one checked-out handle. -/
def exState1 : PoolState :=
  { ConnPool.initial with conns := [exConn], queueLen := 1 }

/-- Example open pool with one live handle, none checked out. -/
def exOneConn : PoolState := { ConnPool.initial with conns := [exConn] }

/-- Example pool with the circuit breaker open and a cached dial error. -/
def exOpenState : PoolState :=
  { ConnPool.initial with dialErrorsNum := 2, lastDialError := some (Err.dialErr 7) }

/-- Example pool whose free-list holds a fresh handle in front of a stale
one (the returns happened out of age order). -/
def exReapState : PoolState :=
  { ConnPool.initial with conns := [exFreshConn, exStaleConn],
                          freeConns := [exFreshConn, exStaleConn] }

/-- Example pool whose free-list holds two stale handles, oldest first. -/
def exSortedReapState : PoolState :=
  { ConnPool.initial with conns := [exStaleConn, exFreshConn],
                          freeConns := [exStaleConn, exFreshConn] }

/-- Example pool whose only handle sits stale in the free-list. -/
def exStaleGetState : PoolState :=
  { ConnPool.initial with conns := [exStaleConn], freeConns := [exStaleConn] }

/-- Example pool left by the reap pass on `exSortedReapState`. -/
def exAfterReapState : PoolState :=
  { ConnPool.initial with conns := [exFreshConn], freeConns := [exFreshConn] }

/-- The free-list/live-set invariant of the spec, strengthened with the
no-duplicates property of the free-list that the checkout discipline
maintains: every free handle is live, and no handle sits in the free-list
twice. -/
def PoolInv (s : PoolState) : Prop :=
  (∀ c ∈ s.freeConns, c ∈ s.conns) ∧ s.freeConns.Nodup

instance (s : PoolState) : Decidable (PoolInv s) := by
  unfold PoolInv; infer_instance

/-! Helper lemmas. -/

theorem CloseConn_fst (opt : Options) (s : PoolState) (cn : Conn) :
    (ConnPool.CloseConn opt s cn).1 = { s with conns := removeConn s.conns cn } := rfl

theorem closeConn_snd (opt : Options) (cn : Conn) :
    (ConnPool.closeConn opt cn).2 = opt.closeResult cn := by
  cases h : opt.onClose <;> simp [ConnPool.closeConn, h]

/-! Claim C10. -/

/-- C10: for every handle and every pool state, whenever `Remove` returns it
returns nil; errors from the close hook or the underlying close are discarded
and never reported to the caller. -/
theorem claim_C10_remove_returns_nil (opt : Options) (cn : Conn) (s : PoolState)
    (r : Option Err) (h : (ConnPool.Remove opt cn s).2.2 = some r) : r = none := by
  by_cases hq : (ConnPool.CloseConn opt s cn).1.queueLen = 0 <;>
    simp [ConnPool.Remove, hq] at h
  exact h.symm

/-- C10 witness: on a concrete pool holding one token, with a close hook and
an underlying close that both fail, `Remove` returns and returns nil. -/
theorem claim_C10_witness :
    (ConnPool.Remove exHookOpt exConn exState1).2.2 = some none ∧
    (none : Option Err) = none :=
  ⟨by decide, claim_C10_remove_returns_nil exHookOpt exConn exState1 none (by decide)⟩

/-! Claim C1. -/

/-- C1 counterexample: on a pool that has been closed (one token still held
by a checked-out handle), `Put` and `Remove` return nil, not the closed-pool
error. -/
theorem claim_C1_counterexample :
    (ConnPool.Put exConn exClosedState).2 = some none ∧
    (ConnPool.Put exConn exClosedState).2 ≠ some (some Err.errClosed) ∧
    (ConnPool.Remove exOpt exConn exClosedState).2.2 = some none ∧
    (ConnPool.Remove exOpt exConn exClosedState).2.2 ≠ some (some Err.errClosed) := by
  refine ⟨by decide, by decide, by decide, by decide⟩

/-- C1 (amended): after `Close()` has returned, `Get` and a second `Close`
return the closed-pool error, while `Put` and `Remove` perform no closed
check and return nil whenever they return. -/
theorem claim_C1_after_close (opt : Options) (now : Int) (s : PoolState) (cn : Conn)
    (h : s.closed = true) :
    (ConnPool.Get opt now s).2.2 = (none, false, some Err.errClosed) ∧
    (ConnPool.Close opt s).2.2 = some Err.errClosed ∧
    (∀ r, (ConnPool.Put cn s).2 = some r → r = none) ∧
    (∀ r, (ConnPool.Remove opt cn s).2.2 = some r → r = none) := by
  refine ⟨by simp [ConnPool.Get, h], by simp [ConnPool.Close, h], ?_, ?_⟩
  · intro r hr
    by_cases hq : s.queueLen = 0 <;> simp [ConnPool.Put, hq] at hr
    exact hr.symm
  · intro r hr
    by_cases hq : (ConnPool.CloseConn opt s cn).1.queueLen = 0 <;>
      simp [ConnPool.Remove, hq] at hr
    exact hr.symm

/-- C1 witness: the amended statement at a concrete closed pool. -/
theorem claim_C1_witness :
    exClosedState.closed = true ∧
    (ConnPool.Get exOpt 0 exClosedState).2.2 = (none, false, some Err.errClosed) :=
  ⟨rfl, (claim_C1_after_close exOpt 0 exClosedState exConn rfl).1⟩

/-! Claim C6. -/

/-- C6: when the dial-failure counter has reached the pool size (circuit
breaker open) and the pool is not closed, `NewConn` returns the cached last
dial error, produces no dial attempt (the factory is not invoked) and leaves
the pool state unchanged. -/
theorem claim_C6_breaker_fast_fail (opt : Options) (s : PoolState)
    (hc : s.closed = false) (hge : opt.poolSize ≤ s.dialErrorsNum) :
    ConnPool.NewConn opt s = (s, [], (none, s.lastDialError)) ∧
    Event.dialAttempt ∉ (ConnPool.NewConn opt s).2.1 := by
  have h1 : ConnPool.NewConn opt s = (s, [], (none, s.lastDialError)) := by
    simp [ConnPool.NewConn, hc, hge]
  exact ⟨h1, by simp [h1]⟩

/-- C6 witness: the fast-fail path on a concrete open-breaker pool. -/
theorem claim_C6_witness :
    exOpenState.closed = false ∧ exOpt.poolSize ≤ exOpenState.dialErrorsNum ∧
    ConnPool.NewConn exOpt exOpenState =
      (exOpenState, [], (none, some (Err.dialErr 7))) :=
  ⟨rfl, by decide, (claim_C6_breaker_fast_fail exOpt exOpenState rfl (by decide)).1⟩

/-! Claim C7. -/

/-- C7: on a failed dial with the breaker not yet open, `NewConn` records the
error as the cached last dial error, increments the failure counter, returns
the dial error, and spawns the background probe loop if and only if the
post-increment failure count exactly equals the pool size. -/
theorem claim_C7_dial_failure (opt : Options) (s : PoolState) (e : Err)
    (hc : s.closed = false) (hlt : s.dialErrorsNum < opt.poolSize)
    (hd : opt.dialer s.dialCount = Except.error e) :
    (ConnPool.NewConn opt s).1.lastDialError = some e ∧
    (ConnPool.NewConn opt s).1.dialErrorsNum = s.dialErrorsNum + 1 ∧
    (ConnPool.NewConn opt s).2.2 = (none, some e) ∧
    (Event.probeSpawned ∈ (ConnPool.NewConn opt s).2.1 ↔
      s.dialErrorsNum + 1 = opt.poolSize) := by
  have hnge : ¬ opt.poolSize ≤ s.dialErrorsNum := not_le.mpr hlt
  by_cases hs : s.dialErrorsNum + 1 = opt.poolSize <;>
    simp [ConnPool.NewConn, hc, hnge, hd, hs]

/-- C7 witness: the threshold-crossing failed dial on a concrete pool with
one prior failure and pool size 2 spawns the probe loop. -/
theorem claim_C7_witness :
    (ConnPool.NewConn exFailOpt
        { ConnPool.initial with dialErrorsNum := 1 }).1.dialErrorsNum = 2 ∧
    Event.probeSpawned ∈
      (ConnPool.NewConn exFailOpt { ConnPool.initial with dialErrorsNum := 1 }).2.1 := by
  have h := claim_C7_dial_failure exFailOpt
    { ConnPool.initial with dialErrorsNum := 1 } (Err.dialErr 0)
    rfl (by decide) rfl
  exact ⟨h.2.1, h.2.2.2.mpr (by decide)⟩

/-! Claim C8. -/

/-- C8: the background probe loop terminates without dialing once the pool is
closed; on a successful dial it resets the failure counter to zero, closes
the probe connection without inserting it into the live-set or the free-list,
and terminates (the result does not depend on the remaining fuel); on a
failed dial it records the error as the cached last dial error and retries
after the fixed back-off sleep. -/
theorem claim_C8_probe_loop (opt : Options) (s : PoolState) (fuel : Nat) :
    (s.closed = true → ConnPool.tryDial opt (fuel + 1) s = (s, [])) ∧
    (∀ c, s.closed = false → opt.dialer s.dialCount = Except.ok c →
      ConnPool.tryDial opt (fuel + 1) s =
        ({ s with dialCount := s.dialCount + 1, dialErrorsNum := 0 },
         [Event.dialAttempt, Event.connClosed c]) ∧
      (ConnPool.tryDial opt (fuel + 1) s).1.dialErrorsNum = 0 ∧
      (ConnPool.tryDial opt (fuel + 1) s).1.conns = s.conns ∧
      (ConnPool.tryDial opt (fuel + 1) s).1.freeConns = s.freeConns) ∧
    (∀ e, s.closed = false → opt.dialer s.dialCount = Except.error e →
      (ConnPool.tryDial opt (fuel + 1) s).1.lastDialError =
        (ConnPool.tryDial opt fuel
          { s with lastDialError := some e, dialCount := s.dialCount + 1 }).1.lastDialError ∧
      ConnPool.tryDial opt (fuel + 1) s =
        ((ConnPool.tryDial opt fuel
            { s with lastDialError := some e, dialCount := s.dialCount + 1 }).1,
         Event.dialAttempt :: Event.probeSleep ::
           (ConnPool.tryDial opt fuel
             { s with lastDialError := some e, dialCount := s.dialCount + 1 }).2)) := by
  refine ⟨?_, ?_, ?_⟩
  · intro h; simp [ConnPool.tryDial, h]
  · intro c hc hd
    simp [ConnPool.tryDial, hc, hd]
  · intro e hc hd
    simp [ConnPool.tryDial, hc, hd]

/-- C8 witness: one failing probe iteration followed by a successful one on a
concrete open-breaker pool, and immediate termination on a closed pool. -/
theorem claim_C8_witness :
    ConnPool.tryDial exFailOpt 3 exOpenState =
      ((ConnPool.tryDial exFailOpt 2
          { exOpenState with lastDialError := some (Err.dialErr 0), dialCount := 1 }).1,
       Event.dialAttempt :: Event.probeSleep ::
         (ConnPool.tryDial exFailOpt 2
           { exOpenState with lastDialError := some (Err.dialErr 0), dialCount := 1 }).2) ∧
    ConnPool.tryDial exOpt 3 exClosedState = (exClosedState, []) ∧
    ConnPool.tryDial exOpt 3 exOpenState =
      ({ exOpenState with dialCount := 1, dialErrorsNum := 0 },
       [Event.dialAttempt, Event.connClosed { id := 100, usedAt := 0 }]) :=
  ⟨((claim_C8_probe_loop exFailOpt exOpenState 2).2.2 (Err.dialErr 0) rfl rfl).2,
   (claim_C8_probe_loop exOpt exClosedState 2).1 rfl,
   ((claim_C8_probe_loop exOpt exOpenState 2).2.1 { id := 100, usedAt := 0 } rfl rfl).1⟩

/-! Claim C2. -/

theorem closeConn_count_connClosed (opt : Options) (c cn : Conn) :
    (ConnPool.closeConn opt c).1.count (Event.connClosed cn) = if cn = c then 1 else 0 := by
  cases h : opt.onClose <;> by_cases hc : cn = c <;>
    simp [ConnPool.closeConn, h, hc]

theorem closeConn_count_hookCalled (opt : Options) (c cn : Conn)
    (hs : opt.onClose.isSome = true) :
    (ConnPool.closeConn opt c).1.count (Event.hookCalled cn) = if cn = c then 1 else 0 := by
  cases h : opt.onClose with
  | none => simp [h] at hs
  | some f => by_cases hc : cn = c <;> simp [ConnPool.closeConn, h, hc]

theorem closeAll_snd (opt : Options) (l : List Conn) :
    (ConnPool.closeAll opt l).2 = l.findSome? opt.closeResult := by
  induction l with
  | nil => rfl
  | cons c rest ih =>
      cases hr : opt.closeResult c <;>
        simp [ConnPool.closeAll, closeConn_snd, hr, List.findSome?_cons, ih]

theorem closeAll_count_connClosed (opt : Options) (l : List Conn) (cn : Conn) :
    (ConnPool.closeAll opt l).1.count (Event.connClosed cn) = l.count cn := by
  induction l with
  | nil => rfl
  | cons c rest ih =>
      by_cases hc : cn = c
      · subst hc
        simp [ConnPool.closeAll, List.count_append, List.count_cons,
              closeConn_count_connClosed, ih, Nat.add_comm]
      · simp [ConnPool.closeAll, List.count_append, List.count_cons,
              closeConn_count_connClosed, hc, ih]

theorem closeAll_count_hookCalled (opt : Options) (l : List Conn) (cn : Conn)
    (hs : opt.onClose.isSome = true) :
    (ConnPool.closeAll opt l).1.count (Event.hookCalled cn) = l.count cn := by
  induction l with
  | nil => rfl
  | cons c rest ih =>
      by_cases hc : cn = c
      · subst hc
        simp [ConnPool.closeAll, List.count_append, List.count_cons,
              closeConn_count_hookCalled, hs, ih, Nat.add_comm]
      · simp [ConnPool.closeAll, List.count_append, List.count_cons,
              closeConn_count_hookCalled, hs, hc, ih]

/-- C2 counterexample: with a close hook configured that fails on the only
live handle while the underlying close succeeds, the first (and only) hook or
close error encountered during shutdown is the hook's, yet `Close` returns
nil — `closeConn` discards the hook's error. -/
theorem claim_C2_counterexample :
    (exHookOpt.onClose.map fun f => f exConn) = some (some (Err.hookErr 7)) ∧
    (ConnPool.Close exHookOpt exOneConn).2.1.count (Event.hookCalled exConn) = 1 ∧
    (ConnPool.Close exHookOpt exOneConn).2.2 = none ∧
    (ConnPool.Close exHookOpt exOneConn).2.2 ≠ some (Err.hookErr 7) := by
  refine ⟨rfl, by rfl, by rfl, by decide⟩

/-- C2 (amended): the first call to `Close()` invokes, for every handle in
the live-set, the close hook (when configured) and the underlying close, each
exactly once (given a duplicate-free live-set), and returns the first
underlying-close error encountered across those handles (nil if none fail);
close errors after the first are suppressed, and close-hook errors are always
discarded. -/
theorem claim_C2_close_first_error (opt : Options) (s : PoolState)
    (hc : s.closed = false) (hnd : s.conns.Nodup) :
    (ConnPool.Close opt s).2.2 = s.conns.findSome? opt.closeResult ∧
    ∀ cn ∈ s.conns,
      (ConnPool.Close opt s).2.1.count (Event.connClosed cn) = 1 ∧
      (opt.onClose.isSome = true →
        (ConnPool.Close opt s).2.1.count (Event.hookCalled cn) = 1) := by
  have hev : (ConnPool.Close opt s).2.1 = (ConnPool.closeAll opt s.conns).1 := by
    simp [ConnPool.Close, hc]
  have herr : (ConnPool.Close opt s).2.2 = (ConnPool.closeAll opt s.conns).2 := by
    simp [ConnPool.Close, hc]
  refine ⟨by rw [herr, closeAll_snd], ?_⟩
  intro cn hm
  have hcount : s.conns.count cn = 1 := List.count_eq_one_of_mem hnd hm
  constructor
  · rw [hev, closeAll_count_connClosed, hcount]
  · intro hs
    rw [hev, closeAll_count_hookCalled opt s.conns cn hs, hcount]

/-- C2 witness: shutdown of a concrete two-handle pool whose first handle
fails to close surfaces exactly that error and closes both handles once. -/
theorem claim_C2_witness :
    (ConnPool.Close
        { exOpt with onClose := some (fun _ => none),
                     closeResult := fun c => if c.id = 0 then some (Err.connCloseErr 3) else none }
        { ConnPool.initial with conns := [exConn, exFreshConn] }).2.2 =
      some (Err.connCloseErr 3) ∧
    (ConnPool.Close
        { exOpt with onClose := some (fun _ => none),
                     closeResult := fun c => if c.id = 0 then some (Err.connCloseErr 3) else none }
        { ConnPool.initial with conns := [exConn, exFreshConn] }).2.1.count
      (Event.hookCalled exFreshConn) = 1 := by
  have h := claim_C2_close_first_error
    { exOpt with onClose := some (fun _ => none),
                 closeResult := fun c => if c.id = 0 then some (Err.connCloseErr 3) else none }
    { ConnPool.initial with conns := [exConn, exFreshConn] }
    rfl (by decide)
  exact ⟨h.1.trans (by rfl), (h.2 exFreshConn (by decide)).2 rfl⟩

/-! Claim C3. -/

theorem mem_of_mem_removeConn (l : List Conn) (cn a : Conn)
    (h : a ∈ removeConn l cn) : a ∈ l := by
  induction l with
  | nil => simp [removeConn] at h
  | cons c rest ih =>
      by_cases hc : c = cn
      · simp [removeConn, hc] at h
        exact List.mem_cons_of_mem _ h
      · simp [removeConn, hc] at h
        rcases h with h | h
        · simp [h]
        · exact List.mem_cons_of_mem _ (ih h)

theorem getFreeLoop_queueLen (opt : Options) (now : Int) (fuel : Nat) (s : PoolState) :
    (ConnPool.getFreeLoop opt now fuel s).1.queueLen = s.queueLen := by
  induction fuel generalizing s with
  | zero => rfl
  | succ fuel ih =>
      rcases List.eq_nil_or_concat s.freeConns with hN | ⟨L, b, hC⟩
      · simp [ConnPool.getFreeLoop, ConnPool.popFree, hN]
      · rw [List.concat_eq_append] at hC
        by_cases hst : b.IsStale now opt.idleTimeout <;>
          simp [ConnPool.getFreeLoop, ConnPool.popFree, hC, List.getLast?_concat,
                List.dropLast_concat, hst, ConnPool.CloseConn, ih]

theorem getFreeLoop_conns_subset (opt : Options) (now : Int) (fuel : Nat) (s : PoolState) :
    ∀ c ∈ (ConnPool.getFreeLoop opt now fuel s).1.conns, c ∈ s.conns := by
  induction fuel generalizing s with
  | zero => intro c hm; exact hm
  | succ fuel ih =>
      intro c hm
      rcases List.eq_nil_or_concat s.freeConns with hN | ⟨L, b, hC⟩
      · simpa [ConnPool.getFreeLoop, ConnPool.popFree, hN] using hm
      · rw [List.concat_eq_append] at hC
        by_cases hst : b.IsStale now opt.idleTimeout
        · simp [ConnPool.getFreeLoop, ConnPool.popFree, hC, List.getLast?_concat,
                List.dropLast_concat, hst, ConnPool.CloseConn] at hm
          have := ih _ c hm
          simp at this
          exact mem_of_mem_removeConn _ _ _ this
        · simpa [ConnPool.getFreeLoop, ConnPool.popFree, hC, List.getLast?_concat,
                 List.dropLast_concat, hst] using hm

theorem NewConn_error_state (opt : Options) (s : PoolState) :
    (ConnPool.NewConn opt s).1.queueLen = s.queueLen ∧
    ((ConnPool.NewConn opt s).2.2.2.isSome = true →
      (ConnPool.NewConn opt s).1.conns = s.conns) := by
  by_cases hc : s.closed
  · simp [ConnPool.NewConn, hc]
  · by_cases hge : opt.poolSize ≤ s.dialErrorsNum
    · simp [ConnPool.NewConn, hc, hge]
    · cases hd : opt.dialer s.dialCount with
      | error e2 =>
          by_cases hs : s.dialErrorsNum + 1 = opt.poolSize <;>
            simp [ConnPool.NewConn, hc, hge, hd, hs]
      | ok nc => simp [ConnPool.NewConn, hc, hge, hd]

/-- C3: whenever `Get` returns an error (closed-pool, pool-timeout, or a
dial/cached error), the number of admission-gate tokens held is unchanged and
no new handle has been added to the live-set; in particular no token is
consumed on the timeout path, and on the creation-failure path the acquired
token is released before the error is returned. -/
theorem claim_C3_get_failure_no_leak (opt : Options) (now : Int) (s : PoolState) (e : Err)
    (h : (ConnPool.Get opt now s).2.2.2.2 = some e) :
    (ConnPool.Get opt now s).1.queueLen = s.queueLen ∧
    ∀ c ∈ (ConnPool.Get opt now s).1.conns, c ∈ s.conns := by
  by_cases hc : s.closed
  · simp [ConnPool.Get, hc]
  · have hcf : s.closed = false := by simpa using hc
    by_cases hq : s.queueLen < opt.poolSize
    · cases ho : (ConnPool.getFreeLoop opt now s.freeConns.length
          { s with queueLen := s.queueLen + 1, closed := false }).2.2 with
      | some cn => simp [ConnPool.Get, hcf, hq, ho] at h
      | none =>
          cases he : (ConnPool.NewConn opt
              (ConnPool.getFreeLoop opt now s.freeConns.length
                { s with queueLen := s.queueLen + 1, closed := false }).1).2.2.2 with
          | none => simp [ConnPool.Get, hcf, hq, ho, he] at h
          | some e2 =>
              have hN := NewConn_error_state opt
                (ConnPool.getFreeLoop opt now s.freeConns.length
                  { s with queueLen := s.queueLen + 1, closed := false }).1
              have hql := getFreeLoop_queueLen opt now s.freeConns.length
                { s with queueLen := s.queueLen + 1, closed := false }
              have hcs := getFreeLoop_conns_subset opt now s.freeConns.length
                { s with queueLen := s.queueLen + 1, closed := false }
              simp only [PoolState.queueLen] at hql
              constructor
              · simp [ConnPool.Get, hcf, hq, ho, he, hN.1, hql]
              · intro c hm
                simp [ConnPool.Get, hcf, hq, ho, he] at hm
                rw [hN.2 (by simp [he])] at hm
                simpa using hcs c hm
    · simp [ConnPool.Get, hcf, hq]

/-- C3 witness: a concrete failing dial inside `Get` releases the acquired
token and adds nothing to the live-set. -/
theorem claim_C3_witness :
    (ConnPool.Get exFailOpt 0 ConnPool.initial).2.2.2.2 = some (Err.dialErr 0) ∧
    (ConnPool.Get exFailOpt 0 ConnPool.initial).1.queueLen = ConnPool.initial.queueLen :=
  ⟨by decide,
   (claim_C3_get_failure_no_leak exFailOpt 0 ConnPool.initial (Err.dialErr 0) (by decide)).1⟩

/-! Claim C5. -/

/-- C5: on a pool that is not closed, from any state in which a token is held
(the handle is checked out) and the queue is within capacity, `Put(h)`
followed immediately by `Get()` returns the very same handle `h` with the
freshly-created flag `false`, provided `h` is not stale at the time of the
`Get` (which covers a disabled idle timeout): `Put` appends at the tail and
the free-list loop pops the tail. -/
theorem claim_C5_put_get_roundtrip (opt : Options) (now : Int) (s : PoolState) (h : Conn)
    (hc : s.closed = false) (hq : 0 < s.queueLen) (hle : s.queueLen ≤ opt.poolSize)
    (hst : h.IsStale now opt.idleTimeout = false) :
    (ConnPool.Put h s).2 = some none ∧
    (ConnPool.Get opt now (ConnPool.Put h s).1).2.2 = (some h, false, none) := by
  have hq0 : ¬ s.queueLen = 0 := by omega
  have hlt : s.queueLen - 1 < opt.poolSize := by omega
  constructor
  · simp [ConnPool.Put, hq0]
  · simp [ConnPool.Put, hq0, ConnPool.Get, hc, hlt, ConnPool.getFreeLoop,
          ConnPool.popFree, List.getLast?_concat, List.dropLast_concat, hst]

/-- C5 witness: the round trip on a concrete one-handle pool. -/
theorem claim_C5_witness :
    (ConnPool.Put exConn exState1).2 = some none ∧
    (ConnPool.Get exOpt 3 (ConnPool.Put exConn exState1).1).2.2 =
      (some exConn, false, none) :=
  claim_C5_put_get_roundtrip exOpt 3 exState1 exConn rfl (by decide) (by decide) (by decide)

/-! Claim C4. -/

theorem getFreeLoop_not_stale (opt : Options) (now : Int) (fuel : Nat) (s : PoolState)
    (cn : Conn) (h : (ConnPool.getFreeLoop opt now fuel s).2.2 = some cn) :
    cn.IsStale now opt.idleTimeout = false := by
  induction fuel generalizing s with
  | zero => simp [ConnPool.getFreeLoop] at h
  | succ fuel ih =>
      rcases List.eq_nil_or_concat s.freeConns with hN | ⟨L, b, hC⟩
      · simp [ConnPool.getFreeLoop, ConnPool.popFree, hN] at h
      · rw [List.concat_eq_append] at hC
        by_cases hst : b.IsStale now opt.idleTimeout
        · simp [ConnPool.getFreeLoop, ConnPool.popFree, hC, List.getLast?_concat,
                List.dropLast_concat, hst, ConnPool.CloseConn] at h
          exact ih _ h
        · simp [ConnPool.getFreeLoop, ConnPool.popFree, hC, List.getLast?_concat,
                List.dropLast_concat, hst] at h
          subst h
          simpa using hst

theorem get_reused_not_stale (opt : Options) (now : Int) (s : PoolState) (cn : Conn)
    (h : (ConnPool.Get opt now s).2.2 = (some cn, false, none)) :
    cn.IsStale now opt.idleTimeout = false := by
  by_cases hc : s.closed
  · simp [ConnPool.Get, hc] at h
  · have hcf : s.closed = false := by simpa using hc
    by_cases hq : s.queueLen < opt.poolSize
    · cases ho : (ConnPool.getFreeLoop opt now s.freeConns.length
          { s with queueLen := s.queueLen + 1, closed := false }).2.2 with
      | some c2 =>
          have hcc : c2 = cn := by
            simp [ConnPool.Get, hcf, hq, ho] at h
            exact h
          exact hcc ▸ getFreeLoop_not_stale opt now _ _ c2 ho
      | none =>
          cases he : (ConnPool.NewConn opt
              (ConnPool.getFreeLoop opt now s.freeConns.length
                { s with queueLen := s.queueLen + 1, closed := false }).1).2.2.2 with
          | some e => simp [ConnPool.Get, hcf, hq, ho, he] at h
          | none => simp [ConnPool.Get, hcf, hq, ho, he] at h
    · simp [ConnPool.Get, hcf, hq] at h

theorem closeConn_mem_connClosed (opt : Options) (b c : Conn)
    (h : Event.connClosed c ∈ (ConnPool.closeConn opt b).1) : c = b := by
  cases ho : opt.onClose <;> simp [ConnPool.closeConn, ho] at h <;> exact h

theorem reapLoop_no_stale (opt : Options) (now : Int) (fuel : Nat) (s : PoolState)
    (hsort : s.freeConns.Pairwise fun a b => a.usedAt ≤ b.usedAt)
    (hfl : s.freeConns.length ≤ fuel) :
    ∀ c ∈ (ConnPool.reapLoop opt now fuel s).1.freeConns,
      c.IsStale now opt.idleTimeout = false := by
  induction fuel generalizing s with
  | zero =>
      intro c hm
      have hnil : s.freeConns = [] := List.length_eq_zero.mp (Nat.le_zero.mp hfl)
      simp [ConnPool.reapLoop, hnil] at hm
  | succ fuel ih =>
      intro c hm
      cases hf : s.freeConns with
      | nil => simp [ConnPool.reapLoop, ConnPool.reapStaleConn, hf] at hm
      | cons b rest =>
          rw [hf] at hsort hfl
          simp only [List.length_cons] at hfl
          by_cases hst : b.IsStale now opt.idleTimeout
          · simp [ConnPool.reapLoop, ConnPool.reapStaleConn, hf, hst,
                  ConnPool.CloseConn] at hm
            exact ih { s with conns := removeConn s.conns b, freeConns := rest }
              hsort.of_cons (Nat.succ_le_succ_iff.mp hfl) c hm
          · simp [ConnPool.reapLoop, ConnPool.reapStaleConn, hf, hst] at hm
            rcases hm with rfl | hm2
            · simpa using hst
            · have hub : b.usedAt ≤ c.usedAt :=
                (List.pairwise_cons.mp hsort).1 c hm2
              have hb : ¬ (0 < opt.idleTimeout ∧ opt.idleTimeout < now - b.usedAt) := by
                simpa [Conn.IsStale] using hst
              by_cases hT : 0 < opt.idleTimeout
              · have hnc : ¬ opt.idleTimeout < now - c.usedAt := by
                  intro hlt2
                  exact hb ⟨hT, by omega⟩
                simp [Conn.IsStale, hT, hnc]
              · simp [Conn.IsStale, hT]

theorem reapLoop_connClosed_mem (opt : Options) (now : Int) (fuel : Nat) (s : PoolState)
    (c : Conn) (h : Event.connClosed c ∈ (ConnPool.reapLoop opt now fuel s).2.1) :
    c ∈ s.freeConns := by
  induction fuel generalizing s with
  | zero => simp [ConnPool.reapLoop] at h
  | succ fuel ih =>
      cases hf : s.freeConns with
      | nil => simp [ConnPool.reapLoop, ConnPool.reapStaleConn, hf] at h
      | cons b rest =>
          by_cases hst : b.IsStale now opt.idleTimeout
          · simp [ConnPool.reapLoop, ConnPool.reapStaleConn, hf, hst,
                  ConnPool.CloseConn] at h
            rcases h with h | h
            · have hcb := closeConn_mem_connClosed opt b c h
              simp [hcb]
            · have hrec := ih { s with conns := removeConn s.conns b, freeConns := rest } h
              exact List.mem_cons_of_mem _ hrec
          · simp [ConnPool.reapLoop, ConnPool.reapStaleConn, hf, hst] at h

theorem reapLoop_count_connClosed (opt : Options) (now : Int) (fuel : Nat) (s : PoolState)
    (hnd : s.freeConns.Nodup) :
    ∀ c ∈ s.freeConns, c ∉ (ConnPool.reapLoop opt now fuel s).1.freeConns →
      (ConnPool.reapLoop opt now fuel s).2.1.count (Event.connClosed c) = 1 := by
  induction fuel generalizing s with
  | zero =>
      intro c hm hnm
      simp [ConnPool.reapLoop] at hnm
      exact absurd hm hnm
  | succ fuel ih =>
      intro c hm hnm
      cases hf : s.freeConns with
      | nil => rw [hf] at hm; simp at hm
      | cons b rest =>
          rw [hf] at hm hnd
          have hbr : b ∉ rest := (List.nodup_cons.mp hnd).1
          have hndr : rest.Nodup := (List.nodup_cons.mp hnd).2
          by_cases hst : b.IsStale now opt.idleTimeout
          · simp [ConnPool.reapLoop, ConnPool.reapStaleConn, hf, hst,
                  ConnPool.CloseConn, List.count_append] at hnm ⊢
            rcases List.mem_cons.mp hm with rfl | hmr
            · have h0 : Event.connClosed c ∉ (ConnPool.reapLoop opt now fuel
                  { s with conns := removeConn s.conns c, freeConns := rest }).2.1 := by
                intro hmem
                exact hbr (reapLoop_connClosed_mem opt now fuel _ c hmem)
              simp [closeConn_count_connClosed, List.count_eq_zero.mpr h0]
            · have hcb : c ≠ b := fun hh => hbr (hh ▸ hmr)
              have h1 := ih { s with conns := removeConn s.conns b, freeConns := rest }
                hndr c hmr hnm
              simp [closeConn_count_connClosed, hcb, h1]
          · simp [ConnPool.reapLoop, ConnPool.reapStaleConn, hf, hst] at hnm
            rcases List.mem_cons.mp hm with rfl | hmr
            · exact absurd rfl hnm.1
            · exact absurd hmr hnm.2

theorem removeConn_sublist (l : List Conn) (cn : Conn) :
    (removeConn l cn).Sublist l := by
  induction l with
  | nil => simp [removeConn]
  | cons c rest ih =>
      by_cases hc : c = cn
      · simp only [removeConn, if_pos hc]
        exact List.sublist_cons_self c rest
      · simpa [removeConn, hc] using ih.cons₂ c

theorem not_mem_removeConn_self (l : List Conn) (cn : Conn) (hnd : l.Nodup) :
    cn ∉ removeConn l cn := by
  induction l with
  | nil => simp [removeConn]
  | cons c rest ih =>
      by_cases hc : c = cn
      · subst hc
        simpa [removeConn] using (List.nodup_cons.mp hnd).1
      · simp only [removeConn, hc, if_false]
        intro hmem
        rcases List.mem_cons.mp hmem with h1 | h2
        · exact hc h1.symm
        · exact ih (List.nodup_cons.mp hnd).2 h2

theorem getFreeLoop_dialCount (opt : Options) (now : Int) (fuel : Nat) (s : PoolState) :
    (ConnPool.getFreeLoop opt now fuel s).1.dialCount = s.dialCount := by
  induction fuel generalizing s with
  | zero => rfl
  | succ fuel ih =>
      rcases List.eq_nil_or_concat s.freeConns with hN | ⟨L, b, hC⟩
      · simp [ConnPool.getFreeLoop, ConnPool.popFree, hN]
      · rw [List.concat_eq_append] at hC
        by_cases hst : b.IsStale now opt.idleTimeout <;>
          simp [ConnPool.getFreeLoop, ConnPool.popFree, hC, List.getLast?_concat,
                List.dropLast_concat, hst, ConnPool.CloseConn, ih]

theorem NewConn_freeConns (opt : Options) (t : PoolState) :
    (ConnPool.NewConn opt t).1.freeConns = t.freeConns := by
  by_cases hc : t.closed
  · simp [ConnPool.NewConn, hc]
  · by_cases hge : opt.poolSize ≤ t.dialErrorsNum
    · simp [ConnPool.NewConn, hc, hge]
    · cases hd : opt.dialer t.dialCount with
      | error e =>
          by_cases hs : t.dialErrorsNum + 1 = opt.poolSize <;>
            simp [ConnPool.NewConn, hc, hge, hd, hs]
      | ok nc => simp [ConnPool.NewConn, hc, hge, hd]

theorem NewConn_no_connClosed (opt : Options) (t : PoolState) (c : Conn) :
    Event.connClosed c ∉ (ConnPool.NewConn opt t).2.1 := by
  by_cases hc : t.closed
  · simp [ConnPool.NewConn, hc]
  · by_cases hge : opt.poolSize ≤ t.dialErrorsNum
    · simp [ConnPool.NewConn, hc, hge]
    · cases hd : opt.dialer t.dialCount with
      | error e =>
          by_cases hs : t.dialErrorsNum + 1 = opt.poolSize <;>
            simp [ConnPool.NewConn, hc, hge, hd, hs]
      | ok nc => simp [ConnPool.NewConn, hc, hge, hd]

theorem NewConn_conn_from_dialer (opt : Options) (t : PoolState) (nc : Conn)
    (h : (ConnPool.NewConn opt t).2.2.1 = some nc) :
    opt.dialer t.dialCount = Except.ok nc := by
  by_cases hc : t.closed
  · simp [ConnPool.NewConn, hc] at h
  · by_cases hge : opt.poolSize ≤ t.dialErrorsNum
    · simp [ConnPool.NewConn, hc, hge] at h
    · cases hd : opt.dialer t.dialCount with
      | error e =>
          by_cases hs : t.dialErrorsNum + 1 = opt.poolSize <;>
            simp [ConnPool.NewConn, hc, hge, hd, hs] at h
      | ok nc2 =>
          simp [ConnPool.NewConn, hc, hge, hd] at h
          rw [h]

theorem NewConn_conns_cases (opt : Options) (t : PoolState) :
    (ConnPool.NewConn opt t).1.conns = t.conns ∨
    (∃ nc, opt.dialer t.dialCount = Except.ok nc ∧
      (ConnPool.NewConn opt t).1.conns = t.conns ++ [nc]) := by
  by_cases hc : t.closed
  · exact Or.inl (by simp [ConnPool.NewConn, hc])
  · by_cases hge : opt.poolSize ≤ t.dialErrorsNum
    · exact Or.inl (by simp [ConnPool.NewConn, hc, hge])
    · cases hd : opt.dialer t.dialCount with
      | error e =>
          refine Or.inl ?_
          by_cases hs : t.dialErrorsNum + 1 = opt.poolSize <;>
            simp [ConnPool.NewConn, hc, hge, hd, hs]
      | ok nc =>
          exact Or.inr ⟨nc, rfl, by simp [ConnPool.NewConn, hc, hge, hd]⟩

theorem getFreeLoop_connClosed_mem (opt : Options) (now : Int) (fuel : Nat)
    (s : PoolState) (c : Conn)
    (h : Event.connClosed c ∈ (ConnPool.getFreeLoop opt now fuel s).2.1) :
    c ∈ s.freeConns := by
  induction fuel generalizing s with
  | zero => simp [ConnPool.getFreeLoop] at h
  | succ fuel ih =>
      rcases List.eq_nil_or_concat s.freeConns with hN | ⟨L, b, hC⟩
      · simp [ConnPool.getFreeLoop, ConnPool.popFree, hN] at h
      · rw [List.concat_eq_append] at hC
        by_cases hst : b.IsStale now opt.idleTimeout
        · simp [ConnPool.getFreeLoop, ConnPool.popFree, hC, List.getLast?_concat,
                List.dropLast_concat, hst, ConnPool.CloseConn] at h
          rw [hC]
          rcases h with h | h
          · have hcb := closeConn_mem_connClosed opt b c h
            simp [hcb]
          · exact List.mem_append_left _
              (ih { s with conns := removeConn s.conns b, freeConns := L } h)
        · simp [ConnPool.getFreeLoop, ConnPool.popFree, hC, List.getLast?_concat,
                List.dropLast_concat, hst] at h

theorem getFreeLoop_evict (opt : Options) (now : Int) (fuel : Nat) (s : PoolState)
    (cn : Conn) (hndf : s.freeConns.Nodup) (hndc : s.conns.Nodup)
    (hmem : cn ∈ s.freeConns) (hst : cn.IsStale now opt.idleTimeout = true)
    (hout : cn ∉ (ConnPool.getFreeLoop opt now fuel s).1.freeConns) :
    (ConnPool.getFreeLoop opt now fuel s).2.1.count (Event.connClosed cn) = 1 ∧
    cn ∉ (ConnPool.getFreeLoop opt now fuel s).1.conns := by
  induction fuel generalizing s with
  | zero => exact absurd hmem hout
  | succ fuel ih =>
      rcases List.eq_nil_or_concat s.freeConns with hN | ⟨L, b, hC⟩
      · rw [hN] at hmem
        simp at hmem
      · rw [List.concat_eq_append] at hC
        have hndfull := hndf
        rw [hC] at hndfull
        have hndL : L.Nodup := (List.nodup_append.mp hndfull).1
        have hbn : b ∉ L := fun hbL =>
          (List.nodup_append.mp hndfull).2.2 hbL (by simp)
        by_cases hstb : b.IsStale now opt.idleTimeout
        · have hstep : ConnPool.getFreeLoop opt now (fuel + 1) s =
              ((ConnPool.getFreeLoop opt now fuel
                  { s with conns := removeConn s.conns b, freeConns := L }).1,
               (ConnPool.closeConn opt b).1 ++
                 (ConnPool.getFreeLoop opt now fuel
                   { s with conns := removeConn s.conns b, freeConns := L }).2.1,
               (ConnPool.getFreeLoop opt now fuel
                 { s with conns := removeConn s.conns b, freeConns := L }).2.2) := by
            simp [ConnPool.getFreeLoop, ConnPool.popFree, hC, List.getLast?_concat,
                  List.dropLast_concat, hstb, ConnPool.CloseConn]
          rw [hstep] at hout ⊢
          rw [hC] at hmem
          rcases List.mem_append.mp hmem with hmL | hmb
          · have hne : cn ≠ b := fun hh => hbn (hh ▸ hmL)
            have hrec := ih { s with conns := removeConn s.conns b, freeConns := L }
              hndL (removeConn_sublist s.conns b |>.nodup hndc) hmL hout
            constructor
            · simp [List.count_append, closeConn_count_connClosed, hne, hrec.1]
            · exact hrec.2
          · have hcb : cn = b := by simpa using hmb
            subst hcb
            have hnotin : cn ∉ removeConn s.conns cn :=
              not_mem_removeConn_self s.conns cn hndc
            have hrec0 : Event.connClosed cn ∉ (ConnPool.getFreeLoop opt now fuel
                { s with conns := removeConn s.conns cn, freeConns := L }).2.1 := by
              intro hmm
              exact hbn (getFreeLoop_connClosed_mem opt now fuel _ cn hmm)
            constructor
            · simp [List.count_append, closeConn_count_connClosed,
                    List.count_eq_zero.mpr hrec0]
            · intro hmm
              exact hnotin (getFreeLoop_conns_subset opt now fuel _ cn hmm)
        · have hstep : ConnPool.getFreeLoop opt now (fuel + 1) s =
              ({ s with freeConns := L }, [], some b) := by
            simp [ConnPool.getFreeLoop, ConnPool.popFree, hC, List.getLast?_concat,
                  List.dropLast_concat, hstb]
          rw [hstep] at hout
          rw [hC] at hmem
          rcases List.mem_append.mp hmem with hmL | hmb
          · exact absurd hmL hout
          · have hcb : cn = b := by simpa using hmb
            rw [hcb] at hst
            exact absurd hst (by simpa using hstb)

/-- C4 counterexample: at time 100 with idle timeout 10, the free-list holds
a fresh head in front of a stale entry (returns happened out of age order);
the reap pass examines only the head, removes nothing, and leaves the stale
handle in the free-list, contradicting "a reap pass does not leave it in the
free-list". -/
theorem claim_C4_counterexample :
    exStaleConn.IsStale 100 exOpt.idleTimeout = true ∧
    ConnPool.ReapStaleConns exOpt 100 exReapState =
      some (exReapState, [], (0, none)) ∧
    exStaleConn ∈ exReapState.freeConns := by
  refine ⟨by decide, by decide, by decide⟩

/-- C4 (amended): for every handle whose staleness predicate holds, `Get`
never returns that handle: a stale handle popped from the free-list is closed
and untracked exactly once, and `Get` moves on to the next candidate or to a
fresh dial (whose result is a newly allocated handle, hence distinct); every
handle a reap pass evicts is likewise closed exactly once; the reap pass
examines only the head of the free-list, so it removes every stale handle
provided the free-list is ordered oldest-first by timestamp (as insertion
order normally keeps it) — a stale entry behind a fresher non-stale head
survives the pass. -/
theorem claim_C4_stale_never_returned (opt : Options) (now : Int) (s : PoolState) :
    (∀ cn, (ConnPool.Get opt now s).2.2 = (some cn, false, none) →
      cn.IsStale now opt.idleTimeout = false) ∧
    (∀ cn, cn.IsStale now opt.idleTimeout = true →
      (∀ nc, opt.dialer s.dialCount = Except.ok nc → nc ≠ cn) →
      (ConnPool.Get opt now s).2.2.1 ≠ some cn) ∧
    (∀ cn, cn ∈ s.freeConns → cn.IsStale now opt.idleTimeout = true →
      s.freeConns.Nodup → s.conns.Nodup →
      (∀ nc, opt.dialer s.dialCount = Except.ok nc → nc ≠ cn) →
      cn ∉ (ConnPool.Get opt now s).1.freeConns →
      (ConnPool.Get opt now s).2.1.count (Event.connClosed cn) = 1 ∧
      cn ∉ (ConnPool.Get opt now s).1.conns) ∧
    ((s.freeConns.Pairwise fun a b => a.usedAt ≤ b.usedAt) →
      ∀ r, ConnPool.ReapStaleConns opt now s = some r →
        ∀ c ∈ r.1.freeConns, c.IsStale now opt.idleTimeout = false) ∧
    (s.freeConns.Nodup →
      ∀ r, ConnPool.ReapStaleConns opt now s = some r →
        ∀ c ∈ s.freeConns, c ∉ r.1.freeConns →
          r.2.1.count (Event.connClosed c) = 1) := by
  refine ⟨fun cn h => get_reused_not_stale opt now s cn h, ?_, ?_, ?_, ?_⟩
  · intro cn hst hfresh heq
    by_cases hc : s.closed
    · simp [ConnPool.Get, hc] at heq
    · have hcf : s.closed = false := by simpa using hc
      by_cases hq : s.queueLen < opt.poolSize
      · cases ho : (ConnPool.getFreeLoop opt now s.freeConns.length
            { s with queueLen := s.queueLen + 1, closed := false }).2.2 with
        | some c2 =>
            have hc2 : c2 = cn := by
              simp [ConnPool.Get, hcf, hq, ho] at heq
              exact heq
            have hns := getFreeLoop_not_stale opt now s.freeConns.length
              { s with queueLen := s.queueLen + 1, closed := false } c2 ho
            rw [hc2, hst] at hns
            exact absurd hns (by decide)
        | none =>
            cases he : (ConnPool.NewConn opt
                (ConnPool.getFreeLoop opt now s.freeConns.length
                  { s with queueLen := s.queueLen + 1, closed := false }).1).2.2.2 with
            | some e => simp [ConnPool.Get, hcf, hq, ho, he] at heq
            | none =>
                have hconn : (ConnPool.NewConn opt
                    (ConnPool.getFreeLoop opt now s.freeConns.length
                      { s with queueLen := s.queueLen + 1, closed := false }).1).2.2.1 =
                    some cn := by
                  simp [ConnPool.Get, hcf, hq, ho, he] at heq
                  exact heq
                have hdial := NewConn_conn_from_dialer opt _ cn hconn
                rw [getFreeLoop_dialCount] at hdial
                exact hfresh cn hdial rfl
      · simp [ConnPool.Get, hcf, hq] at heq
  · intro cn hmem hst hndf hndc hfresh hout
    by_cases hc : s.closed
    · simp [ConnPool.Get, hc] at hout
      exact absurd hmem hout
    · have hcf : s.closed = false := by simpa using hc
      by_cases hq : s.queueLen < opt.poolSize
      · have hev := getFreeLoop_evict opt now s.freeConns.length
          { s with queueLen := s.queueLen + 1, closed := false } cn hndf hndc hmem hst
        cases ho : (ConnPool.getFreeLoop opt now s.freeConns.length
            { s with queueLen := s.queueLen + 1, closed := false }).2.2 with
        | some c2 =>
            have hout2 : cn ∉ (ConnPool.getFreeLoop opt now s.freeConns.length
                { s with queueLen := s.queueLen + 1, closed := false }).1.freeConns := by
              simpa [ConnPool.Get, hcf, hq, ho] using hout
            have h2 := hev hout2
            constructor
            · simpa [ConnPool.Get, hcf, hq, ho] using h2.1
            · simpa [ConnPool.Get, hcf, hq, ho] using h2.2
        | none =>
            have hfree := NewConn_freeConns opt
              (ConnPool.getFreeLoop opt now s.freeConns.length
                { s with queueLen := s.queueLen + 1, closed := false }).1
            have hcount0 : (ConnPool.NewConn opt
                (ConnPool.getFreeLoop opt now s.freeConns.length
                  { s with queueLen := s.queueLen + 1, closed := false }).1).2.1.count
                  (Event.connClosed cn) = 0 :=
              List.count_eq_zero.mpr (NewConn_no_connClosed opt _ cn)
            cases he : (ConnPool.NewConn opt
                (ConnPool.getFreeLoop opt now s.freeConns.length
                  { s with queueLen := s.queueLen + 1, closed := false }).1).2.2.2 with
            | some e =>
                have hout2 : cn ∉ (ConnPool.getFreeLoop opt now s.freeConns.length
                    { s with queueLen := s.queueLen + 1, closed := false }).1.freeConns := by
                  simpa [ConnPool.Get, hcf, hq, ho, he, hfree] using hout
                have h2 := hev hout2
                have hconns := (NewConn_error_state opt
                  (ConnPool.getFreeLoop opt now s.freeConns.length
                    { s with queueLen := s.queueLen + 1, closed := false }).1).2
                  (by simp [he])
                constructor
                · simpa [ConnPool.Get, hcf, hq, ho, he, List.count_append, hcount0]
                    using h2.1
                · simp [ConnPool.Get, hcf, hq, ho, he, hconns]
                  exact h2.2
            | none =>
                have hout2 : cn ∉ (ConnPool.getFreeLoop opt now s.freeConns.length
                    { s with queueLen := s.queueLen + 1, closed := false }).1.freeConns := by
                  simpa [ConnPool.Get, hcf, hq, ho, he, hfree] using hout
                have h2 := hev hout2
                constructor
                · simpa [ConnPool.Get, hcf, hq, ho, he, List.count_append, hcount0]
                    using h2.1
                · rcases NewConn_conns_cases opt
                    (ConnPool.getFreeLoop opt now s.freeConns.length
                      { s with queueLen := s.queueLen + 1, closed := false }).1 with
                    hcc | ⟨nc, hdnc, hcc⟩
                  · simp [ConnPool.Get, hcf, hq, ho, he, hcc]
                    exact h2.2
                  · have hnccn : nc ≠ cn := by
                      rw [getFreeLoop_dialCount] at hdnc
                      exact hfresh nc hdnc
                    simp [ConnPool.Get, hcf, hq, ho, he, hcc]
                    exact ⟨h2.2, fun hcontra => hnccn hcontra.symm⟩
      · simp [ConnPool.Get, hcf, hq] at hout
        exact absurd hmem hout
  · intro hsort r heq
    have hb : ¬ opt.poolSize ≤ s.queueLen := by
      intro hb; simp [ConnPool.ReapStaleConns, hb] at heq
    simp [ConnPool.ReapStaleConns, hb] at heq
    subst heq
    exact reapLoop_no_stale opt now s.freeConns.length s hsort le_rfl
  · intro hnd r heq
    have hb : ¬ opt.poolSize ≤ s.queueLen := by
      intro hb; simp [ConnPool.ReapStaleConns, hb] at heq
    simp [ConnPool.ReapStaleConns, hb] at heq
    subst heq
    exact reapLoop_count_connClosed opt now s.freeConns.length s hnd

/-- C4 witness: concrete instances — a reap pass on an oldest-first free-list
leaves only non-stale handles and closes the evicted one exactly once; a
`Get` on a pool whose only free handle is stale does not return that handle,
closes it exactly once and removes it from the live-set. -/
theorem claim_C4_witness :
    exFreshConn.IsStale 100 exOpt.idleTimeout = false ∧
    (ConnPool.Get exOpt 100 exStaleGetState).2.2.1 ≠ some exStaleConn ∧
    (ConnPool.Get exOpt 100 exStaleGetState).2.1.count
      (Event.connClosed exStaleConn) = 1 ∧
    exStaleConn ∉ (ConnPool.Get exOpt 100 exStaleGetState).1.conns ∧
    List.count (Event.connClosed exStaleConn) [Event.connClosed exStaleConn] = 1 := by
  have hfresh : ∀ nc, exOpt.dialer exStaleGetState.dialCount = Except.ok nc →
      nc ≠ exStaleConn := by
    intro nc hnc
    simp [exOpt, exStaleGetState] at hnc
    simp [← hnc, exStaleConn]
  have hgetA := (claim_C4_stale_never_returned exOpt 100
      { ConnPool.initial with conns := [exFreshConn], freeConns := [exFreshConn] }).1
      exFreshConn (by decide)
  have hget := (claim_C4_stale_never_returned exOpt 100 exStaleGetState).2.1
    exStaleConn (by decide) hfresh
  have hevict := (claim_C4_stale_never_returned exOpt 100 exStaleGetState).2.2.1
    exStaleConn (by decide) (by decide) (by decide) (by decide) hfresh (by decide)
  have hnostale := (claim_C4_stale_never_returned exOpt 100 exSortedReapState).2.2.2.1
    (by decide)
    (exAfterReapState, [Event.connClosed exStaleConn], (1, none))
    (by decide) exFreshConn (by decide)
  have hcount := (claim_C4_stale_never_returned exOpt 100 exSortedReapState).2.2.2.2
    (by decide)
    (exAfterReapState, [Event.connClosed exStaleConn], (1, none))
    (by decide) exStaleConn (by decide) (by decide)
  exact ⟨hnostale, hget, hevict.1, hevict.2, hcount⟩

/-! Claim C9. -/

theorem mem_removeConn_of_ne (l : List Conn) (cn a : Conn) (ha : a ∈ l) (hne : a ≠ cn) :
    a ∈ removeConn l cn := by
  induction l with
  | nil => simp at ha
  | cons c rest ih =>
      rcases List.mem_cons.mp ha with rfl | hr
      · simp [removeConn, hne]
      · by_cases hc : c = cn
        · simpa [removeConn, hc] using hr
        · simp [removeConn, hc]
          exact Or.inr (ih hr)

theorem getFreeLoop_inv (opt : Options) (now : Int) (fuel : Nat) (s : PoolState)
    (hinv : PoolInv s) : PoolInv (ConnPool.getFreeLoop opt now fuel s).1 := by
  induction fuel generalizing s with
  | zero => exact hinv
  | succ fuel ih =>
      rcases List.eq_nil_or_concat s.freeConns with hN | ⟨L, b, hC⟩
      · simpa [ConnPool.getFreeLoop, ConnPool.popFree, hN] using hinv
      · rw [List.concat_eq_append] at hC
        have hndfull := hinv.2
        rw [hC] at hndfull
        have hndL : L.Nodup := (List.nodup_append.mp hndfull).1
        have hbn : b ∉ L := fun hbL =>
          (List.nodup_append.mp hndfull).2.2 hbL (by simp)
        have hsubL : ∀ c ∈ L, c ∈ s.conns := fun c hcm =>
          hinv.1 c (by rw [hC]; exact List.mem_append_left _ hcm)
        by_cases hst : b.IsStale now opt.idleTimeout
        · have hstep : (ConnPool.getFreeLoop opt now (fuel + 1) s).1 =
              (ConnPool.getFreeLoop opt now fuel
                { s with conns := removeConn s.conns b, freeConns := L }).1 := by
            simp [ConnPool.getFreeLoop, ConnPool.popFree, hC, List.getLast?_concat,
                  List.dropLast_concat, hst, ConnPool.CloseConn]
          rw [hstep]
          apply ih
          refine ⟨?_, hndL⟩
          intro c hcm
          exact mem_removeConn_of_ne s.conns b c (hsubL c hcm)
            (fun hh => hbn (hh ▸ hcm))
        · have hstep : (ConnPool.getFreeLoop opt now (fuel + 1) s).1 =
              { s with freeConns := L } := by
            simp [ConnPool.getFreeLoop, ConnPool.popFree, hC, List.getLast?_concat,
                  List.dropLast_concat, hst]
          rw [hstep]
          exact ⟨hsubL, hndL⟩

theorem NewConn_inv (opt : Options) (s : PoolState) (hinv : PoolInv s) :
    PoolInv (ConnPool.NewConn opt s).1 := by
  by_cases hc : s.closed
  · simpa [ConnPool.NewConn, hc] using hinv
  · by_cases hge : opt.poolSize ≤ s.dialErrorsNum
    · simpa [ConnPool.NewConn, hc, hge] using hinv
    · cases hd : opt.dialer s.dialCount with
      | error e =>
          by_cases hs : s.dialErrorsNum + 1 = opt.poolSize <;>
            simpa [ConnPool.NewConn, hc, hge, hd, hs] using hinv
      | ok nc =>
          have hstep : (ConnPool.NewConn opt s).1 =
              { s with dialCount := s.dialCount + 1, conns := s.conns ++ [nc] } := by
            simp [ConnPool.NewConn, hc, hge, hd]
          rw [hstep]
          exact ⟨fun c hcm => List.mem_append_left _ (hinv.1 c hcm), hinv.2⟩

theorem reapLoop_inv (opt : Options) (now : Int) (fuel : Nat) (s : PoolState)
    (hinv : PoolInv s) : PoolInv (ConnPool.reapLoop opt now fuel s).1 := by
  induction fuel generalizing s with
  | zero => exact hinv
  | succ fuel ih =>
      cases hf : s.freeConns with
      | nil => simpa [ConnPool.reapLoop, ConnPool.reapStaleConn, hf] using hinv
      | cons b rest =>
          have hndfull := hinv.2
          rw [hf] at hndfull
          have hbr : b ∉ rest := (List.nodup_cons.mp hndfull).1
          have hndr : rest.Nodup := (List.nodup_cons.mp hndfull).2
          by_cases hst : b.IsStale now opt.idleTimeout
          · have hstep : (ConnPool.reapLoop opt now (fuel + 1) s).1 =
                (ConnPool.reapLoop opt now fuel
                  { s with conns := removeConn s.conns b, freeConns := rest }).1 := by
              simp [ConnPool.reapLoop, ConnPool.reapStaleConn, hf, hst, ConnPool.CloseConn]
            rw [hstep]
            apply ih
            refine ⟨?_, hndr⟩
            intro c hcm
            have hcs : c ∈ s.conns :=
              hinv.1 c (by rw [hf]; exact List.mem_cons_of_mem _ hcm)
            exact mem_removeConn_of_ne s.conns b c hcs (fun hh => hbr (hh ▸ hcm))
          · simpa [ConnPool.reapLoop, ConnPool.reapStaleConn, hf, hst] using hinv

/-- C9: assuming every handle passed to `Put` or `Remove` is currently
checked out from this pool (in the live-set, not in the free-list), every
operation — `Get`, `Put`, `Remove`, `Close`, `NewConn` and a reap pass —
preserves the invariant that every free-list handle is also in the live-set
(together with the free-list's freedom from duplicates, which the same
discipline maintains). -/
theorem claim_C9_freelist_in_liveset (opt : Options) (now : Int) (s : PoolState) (h : Conn) :
    (PoolInv s → PoolInv (ConnPool.Get opt now s).1) ∧
    (PoolInv s → h ∈ s.conns → h ∉ s.freeConns → PoolInv (ConnPool.Put h s).1) ∧
    (PoolInv s → h ∉ s.freeConns → PoolInv (ConnPool.Remove opt h s).1) ∧
    (PoolInv s → PoolInv (ConnPool.Close opt s).1) ∧
    (PoolInv s → PoolInv (ConnPool.NewConn opt s).1) ∧
    (PoolInv s → ∀ r, ConnPool.ReapStaleConns opt now s = some r → PoolInv r.1) := by
  refine ⟨?_, ?_, ?_, ?_, fun hinv => NewConn_inv opt s hinv, ?_⟩
  · intro hinv
    by_cases hc : s.closed
    · simpa [ConnPool.Get, hc] using hinv
    · have hcf : s.closed = false := by simpa using hc
      by_cases hq : s.queueLen < opt.poolSize
      · have hloop : PoolInv (ConnPool.getFreeLoop opt now s.freeConns.length
            { s with queueLen := s.queueLen + 1, closed := false }).1 :=
          getFreeLoop_inv opt now s.freeConns.length
            { s with queueLen := s.queueLen + 1, closed := false } hinv
        cases ho : (ConnPool.getFreeLoop opt now s.freeConns.length
            { s with queueLen := s.queueLen + 1, closed := false }).2.2 with
        | some cn => simpa [ConnPool.Get, hcf, hq, ho] using hloop
        | none =>
            have hnew : PoolInv (ConnPool.NewConn opt
                (ConnPool.getFreeLoop opt now s.freeConns.length
                  { s with queueLen := s.queueLen + 1, closed := false }).1).1 :=
              NewConn_inv opt _ hloop
            cases he : (ConnPool.NewConn opt
                (ConnPool.getFreeLoop opt now s.freeConns.length
                  { s with queueLen := s.queueLen + 1, closed := false }).1).2.2.2 with
            | none => simpa [ConnPool.Get, hcf, hq, ho, he] using hnew
            | some e => simpa [ConnPool.Get, hcf, hq, ho, he] using hnew
      · simpa [ConnPool.Get, hcf, hq] using hinv
  · intro hinv hmem hnf
    have hpinv : PoolInv { s with freeConns := s.freeConns ++ [h] } := by
      refine ⟨?_, ?_⟩
      · intro c hcm
        rcases List.mem_append.mp hcm with hcm | hcm
        · exact hinv.1 c hcm
        · rw [List.mem_singleton.mp hcm]
          exact hmem
      · exact List.nodup_append.mpr ⟨hinv.2, List.nodup_singleton h,
          fun a ha hb => hnf ((List.mem_singleton.mp hb) ▸ ha)⟩
    by_cases hq : s.queueLen = 0 <;> simpa [ConnPool.Put, hq] using hpinv
  · intro hinv hnf
    have hpinv : PoolInv { s with conns := removeConn s.conns h } := by
      refine ⟨?_, hinv.2⟩
      intro c hcm
      exact mem_removeConn_of_ne s.conns h c (hinv.1 c hcm)
        (fun hh => hnf (hh ▸ hcm))
    by_cases hq : s.queueLen = 0 <;>
      simpa [ConnPool.Remove, ConnPool.CloseConn, hq] using hpinv
  · intro hinv
    by_cases hc : s.closed
    · simpa [ConnPool.Close, hc] using hinv
    · simp [ConnPool.Close, hc, PoolInv]
  · intro hinv r heq
    by_cases hb : opt.poolSize ≤ s.queueLen
    · simp [ConnPool.ReapStaleConns, hb] at heq
    · simp [ConnPool.ReapStaleConns, hb] at heq
      subst heq
      exact reapLoop_inv opt now s.freeConns.length s hinv

/-- C9 witness: the invariant holds after each concrete operation on small
pools satisfying it. -/
theorem claim_C9_witness :
    PoolInv (ConnPool.Get exOpt 0 ConnPool.initial).1 ∧
    PoolInv (ConnPool.Put exConn exState1).1 ∧
    PoolInv (ConnPool.Remove exOpt exConn exState1).1 ∧
    PoolInv (ConnPool.Close exOpt exOneConn).1 ∧
    PoolInv (ConnPool.NewConn exOpt ConnPool.initial).1 ∧
    PoolInv exAfterReapState :=
  ⟨(claim_C9_freelist_in_liveset exOpt 0 ConnPool.initial exConn).1 (by decide),
   (claim_C9_freelist_in_liveset exOpt 0 exState1 exConn).2.1 (by decide) (by decide)
     (by decide),
   (claim_C9_freelist_in_liveset exOpt 0 exState1 exConn).2.2.1 (by decide) (by decide),
   (claim_C9_freelist_in_liveset exOpt 0 exOneConn exConn).2.2.2.1 (by decide),
   (claim_C9_freelist_in_liveset exOpt 0 ConnPool.initial exConn).2.2.2.2.1 (by decide),
   (claim_C9_freelist_in_liveset exOpt 100 exSortedReapState exConn).2.2.2.2.2 (by decide)
     (exAfterReapState, [Event.connClosed exStaleConn], (1, none)) (by decide)⟩
